import Mathlib

set_option maxRecDepth 8192

/-!
Verification development for a minimal multi-agent conversational
orchestration layer (two Python demo files).  The data model and
operations below are shallow embeddings of the source: plugin functions
become pure Lean functions on strings, the mutable `ChatHistory` becomes
explicit state passing of a list of turns, the Python dict of the
orchestrator becomes an insertion-ordered association list with the
update-in-place semantics of Python dicts, and the opaque completion
service becomes a function parameter returning either a final message, a
tool-call request, or a failure.
-/

/-- Speaker role of one turn of a chat history. -/
inductive Role where
  | system
  | user
  | assistant
  | toolResult
deriving DecidableEq, Repr

/-- One entry of a chat history: the speaker role and its text content. -/
structure Turn where
  role : Role
  content : String
deriving DecidableEq, Repr

/-- A conversation is the ordered list of turns of a chat history. -/
abbrev Conversation := List Turn

/-- ASCII lowering of one character, modelling Python str.lower on the
ASCII strings this program uses. -/
def charLower (c : Char) : Char :=
  if c.toNat ≥ 65 ∧ c.toNat ≤ 90 then Char.ofNat (c.toNat + 32) else c

/-- ASCII raising of one character, modelling Python str.upper on the
ASCII strings this program uses. -/
def charUpper (c : Char) : Char :=
  if c.toNat ≥ 97 ∧ c.toNat ≤ 122 then Char.ofNat (c.toNat - 32) else c

/-- Python str.lower restricted to ASCII. -/
def pyLower (s : String) : String := ⟨s.data.map charLower⟩

/-- Python str.upper restricted to ASCII. -/
def pyUpper (s : String) : String := ⟨s.data.map charUpper⟩

/-- Does the needle occur at the head of the haystack? -/
def matchesAt : List Char → List Char → Bool
  | [], _ => true
  | _ :: _, [] => false
  | c :: cs, d :: ds => c == d && matchesAt cs ds

/-- Does the needle occur anywhere in the haystack?  Models the Python
substring test `needle in hay`. -/
def hasSub (needle : List Char) : List Char → Bool
  | [] => matchesAt needle []
  | c :: cs => matchesAt needle (c :: cs) || hasSub needle cs

/-- String form of the substring test: `strContains hay needle` models
the Python expression `needle in hay`. -/
def strContains (hay needle : String) : Bool := hasSub needle.data hay.data

/-- Characters of a string up to (excluding) the first newline. -/
def takeUntilNl : List Char → List Char
  | [] => []
  | c :: cs => if c == '\x0A' then [] else c :: takeUntilNl cs

/-- First line of a string: its characters up to the first newline. -/
def firstLine (s : String) : String := ⟨takeUntilNl s.data⟩

/-- Embeds the `research_data` dict of `ResearchPlugin.search_information`
(src/demo-2.py), in insertion order. -/
def research_data : List (String × String) :=
  [("python", "Python is a high-level, interpreted programming language known for its simplicity and readability. It was created by Guido van Rossum and first released in 1991."),
   ("ai", "Artificial Intelligence (AI) refers to the simulation of human intelligence in machines. It includes machine learning, natural language processing, and computer vision."),
   ("quantum computing", "Quantum computing uses quantum-mechanical phenomena like superposition and entanglement to perform operations on data. It has the potential to solve certain problems much faster than classical computers.")]

/-- Embeds `ResearchPlugin.search_information` (src/demo-2.py): lower the
topic, scan the canned entries in insertion order and return the first
whose key occurs in the lowered topic, else a generic fallback string
naming the topic. -/
def search_information (topic : String) : String :=
  let topic_lower := pyLower topic
  match research_data.find? (fun kv => strContains topic_lower kv.1) with
  | some kv => kv.2
  | none => "Research on \x27" ++ topic ++ "\x27: This is a complex topic that requires further investigation."

/-- Embeds `WritingPlugin.create_content` (src/demo-2.py): a templated
string whose first line is the upper-cased style in brackets. -/
def create_content (topic style : String) : String :=
  "[" ++ pyUpper style ++ " CONTENT]" ++ "\x0A\x0A" ++ topic ++ "\x0A\x0A" ++
    "This is a well-crafted piece of content tailored to the " ++ style ++
    " style, covering the key aspects of " ++ topic ++ " with appropriate depth and clarity."

/-- A tool invocation requested by the completion service: the tool name
and the named arguments (argument values modelled as text). -/
structure ToolCallRecord where
  tool_name : String
  arguments : List (String × String)

/-- A tool implementation: a function from named arguments to a text
result, as the kernel_function plugins of src/demo-2.py are. -/
abbrev ToolImpl := List (String × String) → String

/-- Response of the opaque completion service on one call: a final
assistant message, a request to invoke tools, or a failure. -/
inductive CompletionResponse where
  | final (text : String)
  | toolCalls (calls : List ToolCallRecord)
  | failure

/-- A completion service is an opaque function from the conversation so
far to one response; the tool manifest is fixed per agent and therefore
left implicit. -/
abbrev CompletionService := Conversation → CompletionResponse

/-- Errors that abort one process call (spec section 7). -/
inductive ProcErr where
  | toolLoopExceededError
  | completionServiceError
deriving DecidableEq, Repr

/-- Error of registering a tool under a name already taken in the same
agent (spec section 4.1). -/
inductive RegErr where
  | duplicateToolError
deriving DecidableEq, Repr

/-- Embeds the `Agent` class of src/demo-2.py: name, role, system
message, the per-agent tool registry (the kernel's plugin functions,
kept in registration order), the bound completion service id, and the
chat history. -/
structure Agent where
  name : String
  role : String
  system_message : String
  registry : List (String × ToolImpl)
  service_id : String
  chat_history : Conversation

/-- The system turn holding the agent's system message. -/
def systemTurn (sm : String) : Turn := ⟨Role.system, sm⟩

/-- The user turn holding one user message. -/
def userTurn (msg : String) : Turn := ⟨Role.user, msg⟩

/-- Embeds `Agent.__init__` (src/demo-2.py): an empty registry and a chat
history holding exactly the system turn. -/
def mkAgent (name role system_message : String) : Agent :=
  { name := name, role := role, system_message := system_message,
    registry := [], service_id := "", chat_history := [systemTurn system_message] }

/-- Embeds `Agent.initialize` (src/demo-2.py): binds the completion
service id; the chat history and registry are untouched.  (The Python
method name is a reserved word here, hence the different Lean name.) -/
def Agent.initService (a : Agent) (sid : String) : Agent :=
  { a with service_id := sid }

/-- Modelled from the spec: the register operation of section 4.1.  The
source delegates tool registration to the external kernel library
(`Agent.add_plugin` is a one-line call into it), so the duplicate-name
check is absent from src/ and is modelled from the spec contract:
adding a callable fails with DuplicateToolError when the name already
exists in that agent's registry. -/
def Agent.register (a : Agent) (tname : String) (impl : ToolImpl) : Except RegErr Agent :=
  if a.registry.any (fun kv => kv.1 == tname) then
    Except.error RegErr.duplicateToolError
  else
    Except.ok { a with registry := a.registry ++ [(tname, impl)] }

/-- Look up a tool implementation by name in a registry. -/
def lookupTool (reg : List (String × ToolImpl)) (tname : String) : Option ToolImpl :=
  match reg.find? (fun kv => kv.1 == tname) with
  | some kv => some kv.2
  | none => none

/-- Modelled from the spec: executing one requested tool call (section
4.2, step 2 and the failure transitions): a known tool produces a
ToolResult turn with its text result; an unknown tool produces a
ToolResult turn carrying an error description rather than aborting. -/
def invokeTool (reg : List (String × ToolImpl)) (c : ToolCallRecord) : Turn :=
  match lookupTool reg c.tool_name with
  | some impl => ⟨Role.toolResult, impl c.arguments⟩
  | none => ⟨Role.toolResult, "Error: unknown tool " ++ c.tool_name⟩

/-- Modelled from the spec: the tool-loop iteration cap (spec recommends
5 to 10; the source has no cap because it hands the loop to the external
completion library). -/
def toolLoopCap : Nat := 10

/-- Modelled from the spec: the round-trip loop of section 4.2.  Starting
from the history ending in the user turn, consult the completion
service; a failure aborts with CompletionServiceError leaving the
history as it stands; a final message is appended as an Assistant turn
and returned; a tool-call request appends one ToolResult turn per call
in call order and re-consults the service, with the remaining fuel
bounding the number of iterations (fuel exhausted means the cap was
exceeded, fatal with ToolLoopExceededError). -/
def toolLoop (svc : CompletionService) (reg : List (String × ToolImpl)) :
    Nat → Conversation → Conversation × Except ProcErr String
  | 0, hist => (hist, Except.error ProcErr.toolLoopExceededError)
  | Nat.succ fuel, hist =>
    match svc hist with
    | CompletionResponse.failure => (hist, Except.error ProcErr.completionServiceError)
    | CompletionResponse.final text =>
        (hist ++ [⟨Role.assistant, text⟩], Except.ok text)
    | CompletionResponse.toolCalls calls =>
        toolLoop svc reg fuel (hist ++ calls.map (invokeTool reg))

/-- Embeds `Agent.process` (src/demo-2.py): append the user turn, run the
completion round-trip, and return the updated agent together with the
result.  The tool-invocation loop inside the completion call is modelled
from the spec (sections 4.2 and 9) because the source delegates it to
the external service library behind one opaque call. -/
def Agent.process (svc : CompletionService) (a : Agent) (msg : String) :
    Agent × Except ProcErr String :=
  let r := toolLoop svc a.registry toolLoopCap (a.chat_history ++ [userTurn msg])
  ({ a with chat_history := r.1 }, r.2)

/-- Run a sequence of process calls, stopping at the first failure; the
boolean reports whether every call succeeded. -/
def processSeq (svc : CompletionService) : List String → Agent → Agent × Bool
  | [], a => (a, true)
  | msg :: rest, a =>
    match Agent.process svc a msg with
    | (a1, Except.ok _) => processSeq svc rest a1
    | (a1, Except.error _) => (a1, false)

/-- Embeds the `Orchestrator` class of src/demo-2.py: the Python dict
`self.agents` becomes an insertion-ordered association list with the
update-in-place semantics of Python dict assignment. -/
structure Orchestrator where
  agents : List (String × Agent)

/-- Python dict assignment `d[k] = v`: overwrite in place when the key
exists (keeping its original position), else append at the end. -/
def upsert : List (String × Agent) → String → Agent → List (String × Agent)
  | [], n, a => [(n, a)]
  | (k, v) :: rest, n, a =>
    if k == n then (k, a) :: rest else (k, v) :: upsert rest n a

/-- Embeds `Orchestrator.add_agent` (src/demo-2.py):
`self.agents[agent.name] = agent`. -/
def Orchestrator.add_agent (o : Orchestrator) (a : Agent) : Orchestrator :=
  ⟨upsert o.agents a.name a⟩

/-- Embeds `Orchestrator.get_agent` (src/demo-2.py):
`self.agents.get(name)`, a total lookup returning an option. -/
def Orchestrator.get_agent (o : Orchestrator) (n : String) : Option Agent :=
  match o.agents.find? (fun kv => kv.1 == n) with
  | some kv => some kv.2
  | none => none

/-- Embeds `Orchestrator.list_agents` (src/demo-2.py): the name and role
of every stored agent, in insertion order. -/
def Orchestrator.list_agents (o : Orchestrator) : List (String × String) :=
  o.agents.map (fun kv => (kv.2.name, kv.2.role))

/-- The shape invariant of the post-system part of a conversation after
n process calls: a concatenation of n blocks, each one User turn, zero
or more ToolResult turns, then one Assistant turn. -/
inductive Blocks : Nat → List Turn → Prop
  | nil : Blocks 0 []
  | cons {n : Nat} {mid l : List Turn} {msg txt : String} :
      (∀ u ∈ mid, u.role = Role.toolResult) → Blocks n l →
      Blocks (n + 1) (userTurn msg :: (mid ++ ⟨Role.assistant, txt⟩ :: l))

/-- Agent states reachable from construction with name n, role r and
system message sm by any sequence of process calls (under any completion
service), successful tool registrations, and service re-bindings. -/
inductive Reachable (n r sm : String) : Agent → Prop
  | init : Reachable n r sm (mkAgent n r sm)
  | proc {a : Agent} (svc : CompletionService) (msg : String) :
      Reachable n r sm a → Reachable n r sm (Agent.process svc a msg).1
  | reg {a a1 : Agent} (tname : String) (impl : ToolImpl) :
      Reachable n r sm a → Agent.register a tname impl = Except.ok a1 →
      Reachable n r sm a1
  | bindService {a : Agent} (sid : String) :
      Reachable n r sm a → Reachable n r sm (a.initService sid)

/-- A tool invocation always produces a turn of role ToolResult, whether
the tool is known or not. -/
theorem invokeTool_role (reg : List (String × ToolImpl)) (c : ToolCallRecord) :
    (invokeTool reg c).role = Role.toolResult := by
  cases hl : lookupTool reg c.tool_name <;> simp [invokeTool, hl]

/-- The tool loop only ever appends to the history it is given, and every
appended turn is a ToolResult or an Assistant turn. -/
theorem toolLoop_grows (svc : CompletionService) (reg : List (String × ToolImpl))
    (fuel : Nat) : ∀ hist : Conversation,
    ∃ ext, (toolLoop svc reg fuel hist).1 = hist ++ ext ∧
      ∀ t ∈ ext, t.role = Role.toolResult ∨ t.role = Role.assistant := by
  induction fuel with
  | zero =>
    intro hist
    exact ⟨[], by simp [toolLoop], by simp⟩
  | succ fuel ih =>
    intro hist
    cases hsvc : svc hist with
    | failure => exact ⟨[], by simp [toolLoop, hsvc], by simp⟩
    | final text =>
      refine ⟨[⟨Role.assistant, text⟩], by simp [toolLoop, hsvc], ?_⟩
      intro t ht
      simp only [List.mem_singleton] at ht
      subst ht
      exact Or.inr rfl
    | toolCalls calls =>
      obtain ⟨ext, he, hr⟩ := ih (hist ++ calls.map (invokeTool reg))
      refine ⟨calls.map (invokeTool reg) ++ ext, ?_, ?_⟩
      · simp only [toolLoop, hsvc]
        rw [he, List.append_assoc]
      · intro t ht
        rcases List.mem_append.1 ht with hB | hE
        · rcases List.mem_map.1 hB with ⟨c, _, rfl⟩
          exact Or.inl (invokeTool_role reg c)
        · exact hr t hE

/-- A successful tool loop appends zero or more ToolResult turns followed
by exactly one Assistant turn carrying the returned text. -/
theorem toolLoop_ok (svc : CompletionService) (reg : List (String × ToolImpl))
    (fuel : Nat) : ∀ (hist hist1 : Conversation) (t : String),
    toolLoop svc reg fuel hist = (hist1, Except.ok t) →
    ∃ mid, hist1 = hist ++ (mid ++ [⟨Role.assistant, t⟩]) ∧
      ∀ u ∈ mid, u.role = Role.toolResult := by
  induction fuel with
  | zero =>
    intro hist hist1 t h
    simp [toolLoop] at h
  | succ fuel ih =>
    intro hist hist1 t h
    cases hsvc : svc hist with
    | failure => simp [toolLoop, hsvc] at h
    | final text =>
      simp only [toolLoop, hsvc, Prod.mk.injEq, Except.ok.injEq] at h
      obtain ⟨h1, h2⟩ := h
      subst h2
      exact ⟨[], h1.symm, by simp⟩
    | toolCalls calls =>
      simp only [toolLoop, hsvc] at h
      obtain ⟨mid, hm, hr⟩ := ih _ _ _ h
      refine ⟨calls.map (invokeTool reg) ++ mid, ?_, ?_⟩
      · rw [hm]
        simp [List.append_assoc]
      · intro u hu
        rcases List.mem_append.1 hu with hB | hM
        · rcases List.mem_map.1 hB with ⟨c, _, rfl⟩
          exact invokeTool_role reg c
        · exact hr u hM

/-- Against a completion service that always requests the same tool
calls, the tool loop burns all its fuel, appends one batch of ToolResult
turns per iteration, and ends with the loop-exceeded error. -/
theorem toolLoop_const {svc : CompletionService} {calls : List ToolCallRecord}
    (hsvc : ∀ h : Conversation, svc h = CompletionResponse.toolCalls calls)
    (reg : List (String × ToolImpl)) (fuel : Nat) : ∀ hist : Conversation,
    toolLoop svc reg fuel hist =
      (hist ++ (List.replicate fuel (calls.map (invokeTool reg))).flatten,
       Except.error ProcErr.toolLoopExceededError) := by
  induction fuel with
  | zero => intro hist; simp [toolLoop]
  | succ fuel ih =>
    intro hist
    simp only [toolLoop, hsvc hist]
    rw [ih]
    simp [List.replicate_succ, List.append_assoc]

/-- When the completion service fails at the history it is first shown,
the tool loop aborts at once, leaving the history untouched. -/
theorem toolLoop_fail {svc : CompletionService} {reg : List (String × ToolImpl)}
    {hist : Conversation} (fuel : Nat) (h : svc hist = CompletionResponse.failure) :
    toolLoop svc reg (Nat.succ fuel) hist =
      (hist, Except.error ProcErr.completionServiceError) := by
  simp [toolLoop, h]

/-- A successful process call appends the user turn, zero or more
ToolResult turns, and one Assistant turn carrying the returned text. -/
theorem process_ok {svc : CompletionService} {a a1 : Agent} {msg t : String}
    (h : Agent.process svc a msg = (a1, Except.ok t)) :
    ∃ mid, a1.chat_history =
        a.chat_history ++ (userTurn msg :: (mid ++ [⟨Role.assistant, t⟩])) ∧
      ∀ u ∈ mid, u.role = Role.toolResult := by
  have h1 : a1.chat_history =
      (toolLoop svc a.registry toolLoopCap (a.chat_history ++ [userTurn msg])).1 := by
    have hf := congrArg Prod.fst h
    simp only [Agent.process] at hf
    rw [← hf]
  have h2 : (toolLoop svc a.registry toolLoopCap (a.chat_history ++ [userTurn msg])).2 =
      Except.ok t := by
    have hs := congrArg Prod.snd h
    simpa [Agent.process] using hs
  obtain ⟨mid, hm, hr⟩ := toolLoop_ok svc a.registry toolLoopCap
    (a.chat_history ++ [userTurn msg]) _ t (by rw [← h2])
  refine ⟨mid, ?_, hr⟩
  rw [h1, hm, List.append_assoc]
  simp

/-- A successful registration only extends the registry; every other
field of the agent is unchanged. -/
theorem register_ok_fields {a a1 : Agent} {tname : String} {impl : ToolImpl}
    (h : Agent.register a tname impl = Except.ok a1) :
    a1.name = a.name ∧ a1.role = a.role ∧ a1.system_message = a.system_message ∧
      a1.service_id = a.service_id ∧ a1.chat_history = a.chat_history := by
  by_cases hc : a.registry.any (fun kv => kv.1 == tname)
  · simp [Agent.register, hc] at h
  · simp only [Agent.register, hc, Bool.false_eq_true, if_false, Except.ok.injEq] at h
    subst h
    exact ⟨rfl, rfl, rfl, rfl, rfl⟩

/-- The length of n well-formed blocks is at least 2n. -/
theorem Blocks.two_mul_le {nb : Nat} {l : List Turn} (h : Blocks nb l) :
    2 * nb ≤ l.length := by
  induction h with
  | nil => simp
  | cons hmid hb ih =>
    simp only [List.length_cons, List.length_append]
    omega

/-- If a key is absent from an association list, searching for it finds
nothing. -/
theorem find?_eq_none_of_keys {l : List (String × Agent)} {n : String}
    (h : ∀ kv ∈ l, kv.1 ≠ n) :
    l.find? (fun kv => kv.1 == n) = none := by
  induction l with
  | nil => rfl
  | cons kv rest ih =>
    rw [List.find?_cons_of_neg _ (by simpa using h kv (List.mem_cons_self _ _))]
    exact ih (fun p hp => h p (List.mem_cons_of_mem _ hp))

/-- After a dict assignment, searching for the assigned key finds the
assigned value. -/
theorem find?_upsert (l : List (String × Agent)) (n : String) (a : Agent) :
    (upsert l n a).find? (fun kv => kv.1 == n) = some (n, a) := by
  induction l with
  | nil => simp [upsert]
  | cons kv rest ih =>
    obtain ⟨k, v⟩ := kv
    by_cases hk : k = n
    · subst hk
      simp [upsert]
    · simp only [upsert]
      rw [if_neg (by simpa using hk)]
      rw [List.find?_cons_of_neg _ (by simpa using hk)]
      exact ih

/-- A dict assignment with a fresh key appends the binding at the end. -/
theorem upsert_of_fresh {l : List (String × Agent)} {n : String} (a : Agent)
    (h : ∀ kv ∈ l, kv.1 ≠ n) : upsert l n a = l ++ [(n, a)] := by
  induction l with
  | nil => rfl
  | cons kv rest ih =>
    obtain ⟨k, v⟩ := kv
    have hk : k ≠ n := h (k, v) (List.mem_cons_self _ _)
    simp only [upsert, List.cons_append]
    rw [if_neg (by simpa using hk)]
    rw [ih (fun p hp => h p (List.mem_cons_of_mem _ hp))]

/-- A dict assignment walks past any leading segment free of its key. -/
theorem upsert_skip {l : List (String × Agent)} {n : String}
    (m : List (String × Agent)) (a : Agent)
    (h : ∀ kv ∈ l, kv.1 ≠ n) : upsert (l ++ m) n a = l ++ upsert m n a := by
  induction l with
  | nil => rfl
  | cons kv rest ih =>
    obtain ⟨k, v⟩ := kv
    have hk : k ≠ n := h (k, v) (List.mem_cons_self _ _)
    simp only [List.cons_append, upsert]
    rw [if_neg (by simpa using hk)]
    exact congrArg (List.cons (k, v)) (ih (fun p hp => h p (List.mem_cons_of_mem _ hp)))

/-- Looking up an agent right after adding it returns that very agent. -/
theorem get_add_self (o : Orchestrator) (a : Agent) :
    (o.add_agent a).get_agent a.name = some a := by
  simp [Orchestrator.get_agent, Orchestrator.add_agent, find?_upsert]

/-- A run of process calls that all succeed extends the chat history by
one well-formed block per call. -/
theorem processSeq_blocks (svc : CompletionService) (msgs : List String) :
    ∀ a : Agent, (processSeq svc msgs a).2 = true →
    ∃ l, (processSeq svc msgs a).1.chat_history = a.chat_history ++ l ∧
      Blocks msgs.length l := by
  induction msgs with
  | nil =>
    intro a _
    exact ⟨[], by simp [processSeq], Blocks.nil⟩
  | cons msg rest ih =>
    intro a h
    cases hp : Agent.process svc a msg with
    | mk a1 res =>
      cases res with
      | ok t =>
        have hseq : processSeq svc (msg :: rest) a = processSeq svc rest a1 := by
          simp [processSeq, hp]
        rw [hseq] at h ⊢
        obtain ⟨l, hl, hb⟩ := ih a1 h
        obtain ⟨mid, hm, hroles⟩ := process_ok hp
        refine ⟨userTurn msg :: (mid ++ ⟨Role.assistant, t⟩ :: l), ?_, Blocks.cons hroles hb⟩
        rw [hl, hm]
        simp [List.append_assoc]
      | error e =>
        simp [processSeq, hp] at h

/-- The research agent exactly as main of src/demo-2.py constructs it. -/
def researchAgent : Agent :=
  mkAgent "ResearchAgent" "Research Specialist"
    "You are a research specialist. Your job is to gather and summarize information on various topics. Use the search_information tool when needed."

/-- The analyst agent exactly as main of src/demo-2.py constructs it. -/
def analystAgent : Agent :=
  mkAgent "AnalystAgent" "Data Analyst"
    "You are a data analyst. Your job is to analyze data and provide insights. Use the analyze_data tool when needed."

/-- A second agent reusing the ResearchAgent name with a different role,
for exercising duplicate-name registration. -/
def researchAgentV2 : Agent :=
  mkAgent "ResearchAgent" "Research Specialist v2" "Updated system message."

/-- The search_information plugin packaged as a named-argument tool
implementation: reads the topic argument and runs the plugin. -/
def searchTool : ToolImpl := fun args =>
  search_information ((args.find? (fun p => p.1 == "topic")).elim "" (fun p => p.2))

/-- A tool-call request for the research tool. -/
def searchCall : ToolCallRecord := ⟨"search_information", [("topic", "python")]⟩

/-- C1 counterexample: invoking search_information with topic
"blockchain" does not return the generic fallback string containing the
topic name; the key "ai" of the canned dictionary occurs as a substring
of "blockchain", so the canned AI string is returned, and the result
does not even contain "blockchain". -/
theorem search_information_blockchain_not_fallback :
    search_information "blockchain" =
      "Artificial Intelligence (AI) refers to the simulation of human intelligence in machines. It includes machine learning, natural language processing, and computer vision." ∧
    search_information "blockchain" ≠
      "Research on \x27blockchain\x27: This is a complex topic that requires further investigation." ∧
    strContains (search_information "blockchain") "blockchain" = false := by
  refine ⟨by decide, by decide, by decide⟩

/-- C1 (amended): search_information with topic "python" returns the
fixed canned string for "python"; with topic "blockchain" it returns the
canned string for "ai" because "ai" occurs inside "blockchain"; a topic
containing no canned key as a substring, such as "rust", returns the
generic fallback string containing the topic name. -/
theorem search_information_canned_and_fallback :
    search_information "python" =
      "Python is a high-level, interpreted programming language known for its simplicity and readability. It was created by Guido van Rossum and first released in 1991." ∧
    search_information "blockchain" =
      "Artificial Intelligence (AI) refers to the simulation of human intelligence in machines. It includes machine learning, natural language processing, and computer vision." ∧
    search_information "rust" =
      "Research on \x27rust\x27: This is a complex topic that requires further investigation." ∧
    strContains (search_information "rust") "rust" = true := by
  refine ⟨by decide, by decide, by decide, by decide⟩

/-- C2: under a completion service that always requests tool
invocations, process stops after the fixed iteration cap with
ToolLoopExceededError, and the chat history still holds the user turn
followed by every ToolResult turn appended up to the cap (one batch per
iteration, all of role ToolResult). -/
theorem process_tool_loop_cap (svc : CompletionService) (calls : List ToolCallRecord)
    (a : Agent) (msg : String)
    (hsvc : ∀ h : Conversation, svc h = CompletionResponse.toolCalls calls) :
    (Agent.process svc a msg).2 = Except.error ProcErr.toolLoopExceededError ∧
    (Agent.process svc a msg).1.chat_history =
      a.chat_history ++ userTurn msg ::
        (List.replicate toolLoopCap (calls.map (invokeTool a.registry))).flatten ∧
    ∀ t ∈ (List.replicate toolLoopCap (calls.map (invokeTool a.registry))).flatten,
      t.role = Role.toolResult := by
  have hc := toolLoop_const hsvc a.registry toolLoopCap (a.chat_history ++ [userTurn msg])
  refine ⟨?_, ?_, ?_⟩
  · simp only [Agent.process]
    rw [hc]
  · simp only [Agent.process]
    rw [hc]
    simp
  · intro t ht
    rcases List.mem_flatten.1 ht with ⟨s, hs, hts⟩
    rw [List.eq_of_mem_replicate hs] at hts
    rcases List.mem_map.1 hts with ⟨c, _, rfl⟩
    exact invokeTool_role _ c

/-- C2 witness: the research agent under a service that always asks for
the search tool. -/
theorem process_tool_loop_cap_witness :
    (Agent.process (fun _ => CompletionResponse.toolCalls [searchCall]) researchAgent "hi").2
        = Except.error ProcErr.toolLoopExceededError ∧
    (Agent.process (fun _ => CompletionResponse.toolCalls [searchCall]) researchAgent "hi").1.chat_history
        = researchAgent.chat_history ++ userTurn "hi" ::
            (List.replicate toolLoopCap ([searchCall].map (invokeTool researchAgent.registry))).flatten ∧
    ∀ t ∈ (List.replicate toolLoopCap ([searchCall].map (invokeTool researchAgent.registry))).flatten,
      t.role = Role.toolResult :=
  process_tool_loop_cap _ [searchCall] researchAgent "hi" (fun _ => rfl)

/-- C3: registering a tool under a name free in an agent succeeds, a
second registration of the same name on that agent fails with
DuplicateToolError, and an independent agent can still register the
same name. -/
theorem register_duplicate_tool (a1 a2 : Agent) (n : String) (i1 i2 i3 : ToolImpl)
    (h1 : ∀ kv ∈ a1.registry, kv.1 ≠ n) (h2 : ∀ kv ∈ a2.registry, kv.1 ≠ n) :
    ∃ a1x, Agent.register a1 n i1 = Except.ok a1x ∧
      Agent.register a1x n i2 = Except.error RegErr.duplicateToolError ∧
      ∃ a2x, Agent.register a2 n i3 = Except.ok a2x := by
  have hany1 : a1.registry.any (fun kv => kv.1 == n) = false := by
    rw [List.any_eq_false]
    intro kv hkv
    simpa using h1 kv hkv
  have hany2 : a2.registry.any (fun kv => kv.1 == n) = false := by
    rw [List.any_eq_false]
    intro kv hkv
    simpa using h2 kv hkv
  refine ⟨{ a1 with registry := a1.registry ++ [(n, i1)] }, ?_, ?_,
    { a2 with registry := a2.registry ++ [(n, i3)] }, ?_⟩
  · simp [Agent.register, hany1]
  · simp [Agent.register, List.any_append]
  · simp [Agent.register, hany2]

/-- C3 witness: the research and analyst agents both start with empty
registries; the search tool registers once on each but not twice on
one. -/
theorem register_duplicate_tool_witness :
    ∃ a1x, Agent.register researchAgent "search_information" searchTool = Except.ok a1x ∧
      Agent.register a1x "search_information" searchTool = Except.error RegErr.duplicateToolError ∧
      ∃ a2x, Agent.register analystAgent "search_information" searchTool = Except.ok a2x :=
  register_duplicate_tool researchAgent analystAgent "search_information"
    searchTool searchTool searchTool
    (by simp [researchAgent, mkAgent]) (by simp [analystAgent, mkAgent])

/-- C4: after any N process calls that all succeed, the chat history is
the system turn followed by exactly N blocks, each one User turn, zero
or more ToolResult turns, then one Assistant turn, so it has at least
1 + 2N turns. -/
theorem processSeq_turn_structure (svc : CompletionService) (msgs : List String)
    (n r sm : String)
    (h : (processSeq svc msgs (mkAgent n r sm)).2 = true) :
    ∃ l, (processSeq svc msgs (mkAgent n r sm)).1.chat_history = systemTurn sm :: l ∧
      Blocks msgs.length l ∧
      1 + 2 * msgs.length ≤ ((processSeq svc msgs (mkAgent n r sm)).1.chat_history).length := by
  obtain ⟨l, hl, hb⟩ := processSeq_blocks svc msgs (mkAgent n r sm) h
  have hl1 : (processSeq svc msgs (mkAgent n r sm)).1.chat_history = systemTurn sm :: l := by
    simpa [mkAgent] using hl
  refine ⟨l, hl1, hb, ?_⟩
  rw [hl1]
  have := hb.two_mul_le
  simp only [List.length_cons]
  omega

/-- C4 witness: two successful calls on a fresh research agent. -/
theorem processSeq_turn_structure_witness :
    ∃ l, (processSeq (fun _ => CompletionResponse.final "ok") ["hello", "again"]
        (mkAgent "ResearchAgent" "Research Specialist" "You are a research specialist.")).1.chat_history
        = systemTurn "You are a research specialist." :: l ∧
      Blocks (["hello", "again"] : List String).length l ∧
      1 + 2 * (["hello", "again"] : List String).length ≤
        ((processSeq (fun _ => CompletionResponse.final "ok") ["hello", "again"]
          (mkAgent "ResearchAgent" "Research Specialist" "You are a research specialist.")).1.chat_history).length :=
  processSeq_turn_structure (fun _ => CompletionResponse.final "ok") ["hello", "again"]
    "ResearchAgent" "Research Specialist" "You are a research specialist." rfl

/-- C5: in every agent state reachable from construction, the chat
history starts with the system turn carrying the construction-time
system message, and no other turn has the System role: process,
registration and service re-binding neither mutate nor remove it. -/
theorem reachable_system_turn_invariant {n r sm : String} {a : Agent}
    (h : Reachable n r sm a) :
    ∃ rest, a.chat_history = systemTurn sm :: rest ∧
      ∀ t ∈ rest, t.role ≠ Role.system := by
  induction h with
  | init => exact ⟨[], by simp [mkAgent], by simp⟩
  | @proc a0 svc msg hra ih =>
    obtain ⟨rest, hrest, hroles⟩ := ih
    obtain ⟨ext, hext, hextroles⟩ :=
      toolLoop_grows svc a0.registry toolLoopCap (a0.chat_history ++ [userTurn msg])
    refine ⟨rest ++ (userTurn msg :: ext), ?_, ?_⟩
    · show (toolLoop svc a0.registry toolLoopCap (a0.chat_history ++ [userTurn msg])).1 = _
      rw [hext, hrest]
      simp
    · intro t ht
      rcases List.mem_append.1 ht with h1 | h2
      · exact hroles t h1
      · rcases List.mem_cons.1 h2 with rfl | h3
        · simp [userTurn]
        · rcases hextroles t h3 with h4 | h4 <;> simp [h4]
  | @reg a0 a1 tname impl hra heq ih =>
    obtain ⟨rest, hrest, hroles⟩ := ih
    exact ⟨rest, by rw [(register_ok_fields heq).2.2.2.2, hrest], hroles⟩
  | @bindService a0 sid hra ih =>
    obtain ⟨rest, hrest, hroles⟩ := ih
    exact ⟨rest, hrest, hroles⟩

/-- C5 witness: one process call on the freshly built research agent. -/
theorem reachable_system_turn_invariant_witness :
    ∃ rest, (Agent.process (fun _ => CompletionResponse.final "ok") researchAgent "hi").1.chat_history
        = systemTurn "You are a research specialist. Your job is to gather and summarize information on various topics. Use the search_information tool when needed." :: rest ∧
      ∀ t ∈ rest, t.role ≠ Role.system :=
  reachable_system_turn_invariant
    (Reachable.proc (fun _ => CompletionResponse.final "ok") "hi" Reachable.init)

/-- C6: when the completion service fails on the history it is shown,
process fails with CompletionServiceError and the chat history is
exactly the pre-call history extended by the triggering user turn: no
Assistant or ToolResult turn is added by the failed call. -/
theorem process_completion_failure (svc : CompletionService) (a : Agent) (msg : String)
    (h : svc (a.chat_history ++ [userTurn msg]) = CompletionResponse.failure) :
    Agent.process svc a msg =
      ({ a with chat_history := a.chat_history ++ [userTurn msg] },
       Except.error ProcErr.completionServiceError) := by
  have hc : toolLoop svc a.registry toolLoopCap (a.chat_history ++ [userTurn msg]) =
      (a.chat_history ++ [userTurn msg], Except.error ProcErr.completionServiceError) :=
    toolLoop_fail 9 h
  simp only [Agent.process]
  rw [hc]

/-- C6 witness: an always-failing service on the research agent. -/
theorem process_completion_failure_witness :
    Agent.process (fun _ => CompletionResponse.failure) researchAgent "hi" =
      ({ researchAgent with chat_history := researchAgent.chat_history ++ [userTurn "hi"] },
       Except.error ProcErr.completionServiceError) :=
  process_completion_failure (fun _ => CompletionResponse.failure) researchAgent "hi" rfl

/-- C7: after add_agent, get_agent on that agent name returns the very
agent stored; get_agent of any name never added is the total lookup
returning none, raising nothing. -/
theorem orchestrator_add_get (o : Orchestrator) (a : Agent) (m : String)
    (hm : ∀ kv ∈ o.agents, kv.1 ≠ m) :
    (o.add_agent a).get_agent a.name = some a ∧ o.get_agent m = none := by
  constructor
  · exact get_add_self o a
  · simp [Orchestrator.get_agent, find?_eq_none_of_keys hm]

/-- C7 witness: the research agent in an empty orchestrator, and a
missing name. -/
theorem orchestrator_add_get_witness :
    (Orchestrator.add_agent ⟨[]⟩ researchAgent).get_agent researchAgent.name
        = some researchAgent ∧
    (Orchestrator.mk []).get_agent "missing" = none :=
  orchestrator_add_get ⟨[]⟩ researchAgent "missing" (by simp)

/-- C8: create_content on topic AI with casual style: the first line of
the result is the open bracket, the upper-cased style, then CONTENT and
the closing bracket; the first line contains the upper-cased style, and
the whole result contains the topic AI. -/
theorem create_content_casual_ai :
    firstLine (create_content "AI" "casual") = "[" ++ pyUpper "casual" ++ " CONTENT]" ∧
    strContains (firstLine (create_content "AI" "casual")) (pyUpper "casual") = true ∧
    strContains (create_content "AI" "casual") "AI" = true := by
  refine ⟨by decide, by decide, by decide⟩

/-- C9: adding two agents with the same name raises nothing (add_agent
is a total dict assignment); the later agent wins the lookup, and the
directory holds exactly one entry for that name, sitting at the position
of the first insertion. -/
theorem orchestrator_duplicate_name_last_wins (l : List (String × Agent)) (a1 a2 : Agent)
    (hname : a1.name = a2.name)
    (hkeys : ∀ kv ∈ l, kv.1 ≠ a1.name ∧ kv.2.name ≠ a1.name) :
    ((Orchestrator.mk l).add_agent a1 |>.add_agent a2).get_agent a2.name = some a2 ∧
    ((Orchestrator.mk l).add_agent a1 |>.add_agent a2).agents = l ++ [(a1.name, a2)] ∧
    ((Orchestrator.mk l).add_agent a1 |>.add_agent a2).list_agents =
      (Orchestrator.mk l).list_agents ++ [(a2.name, a2.role)] ∧
    (((Orchestrator.mk l).add_agent a1 |>.add_agent a2).list_agents.countP
      (fun e => e.1 == a1.name)) = 1 := by
  have hkeys1 : ∀ kv ∈ l, kv.1 ≠ a1.name := fun kv hkv => (hkeys kv hkv).1
  have hA : ((Orchestrator.mk l).add_agent a1).agents = l ++ [(a1.name, a1)] :=
    upsert_of_fresh a1 hkeys1
  have hB : ((Orchestrator.mk l).add_agent a1 |>.add_agent a2).agents
      = l ++ [(a1.name, a2)] := by
    show upsert ((Orchestrator.mk l).add_agent a1).agents a2.name a2 = _
    rw [hA, ← hname, upsert_skip _ a2 hkeys1]
    simp [upsert]
  have hL : ((Orchestrator.mk l).add_agent a1 |>.add_agent a2).list_agents
      = l.map (fun kv => (kv.2.name, kv.2.role)) ++ [(a2.name, a2.role)] := by
    simp [Orchestrator.list_agents, hB]
  refine ⟨get_add_self _ a2, hB, ?_, ?_⟩
  · rw [hL]
    rfl
  · rw [hL, List.countP_append]
    have h0 : (l.map (fun kv => (kv.2.name, kv.2.role))).countP
        (fun e => e.1 == a1.name) = 0 := by
      rw [List.countP_eq_zero]
      intro e he
      rcases List.mem_map.1 he with ⟨kv, hkv, rfl⟩
      simpa using (hkeys kv hkv).2
    rw [h0]
    simp [hname]

/-- C9 witness: two agents named ResearchAgent added to an empty
orchestrator. -/
theorem orchestrator_duplicate_name_last_wins_witness :
    ((Orchestrator.mk []).add_agent researchAgent |>.add_agent researchAgentV2).get_agent
        researchAgentV2.name = some researchAgentV2 ∧
    ((Orchestrator.mk []).add_agent researchAgent |>.add_agent researchAgentV2).agents
        = [] ++ [(researchAgent.name, researchAgentV2)] ∧
    ((Orchestrator.mk []).add_agent researchAgent |>.add_agent researchAgentV2).list_agents
        = (Orchestrator.mk []).list_agents ++ [(researchAgentV2.name, researchAgentV2.role)] ∧
    (((Orchestrator.mk []).add_agent researchAgent |>.add_agent researchAgentV2).list_agents.countP
      (fun e => e.1 == researchAgent.name)) = 1 :=
  orchestrator_duplicate_name_last_wins [] researchAgent researchAgentV2 rfl (by simp)

/-- C10: process, succeeding or failing, leaves the agent name, role,
system message, tool registry and service binding unchanged; only the
chat history changes, by appending, and on success the returned string
is the content of the Assistant turn the call appends last. -/
theorem process_frame_and_result (svc : CompletionService) (a : Agent) (msg : String) :
    (Agent.process svc a msg).1.name = a.name ∧
    (Agent.process svc a msg).1.role = a.role ∧
    (Agent.process svc a msg).1.system_message = a.system_message ∧
    (Agent.process svc a msg).1.registry = a.registry ∧
    (Agent.process svc a msg).1.service_id = a.service_id ∧
    (∃ ext, (Agent.process svc a msg).1.chat_history = a.chat_history ++ ext) ∧
    ∀ t : String, (Agent.process svc a msg).2 = Except.ok t →
      ∃ pre, (Agent.process svc a msg).1.chat_history = pre ++ [⟨Role.assistant, t⟩] := by
  refine ⟨rfl, rfl, rfl, rfl, rfl, ?_, ?_⟩
  · obtain ⟨ext, hext, _⟩ :=
      toolLoop_grows svc a.registry toolLoopCap (a.chat_history ++ [userTurn msg])
    refine ⟨userTurn msg :: ext, ?_⟩
    show (toolLoop svc a.registry toolLoopCap (a.chat_history ++ [userTurn msg])).1 = _
    rw [hext]
    simp
  · intro t ht
    have hp : Agent.process svc a msg = ((Agent.process svc a msg).1, Except.ok t) := by
      rw [← ht]
    obtain ⟨mid, hm, _⟩ := process_ok hp
    refine ⟨a.chat_history ++ userTurn msg :: mid, ?_⟩
    rw [hm]
    simp

/-- C10 witness: a succeeding call on the research agent keeps every
field but the chat history, which ends in the Assistant turn holding the
returned text. -/
theorem process_frame_and_result_witness :
    (Agent.process (fun _ => CompletionResponse.final "All good.") researchAgent "hello").1.name
        = researchAgent.name ∧
    (Agent.process (fun _ => CompletionResponse.final "All good.") researchAgent "hello").1.role
        = researchAgent.role ∧
    (Agent.process (fun _ => CompletionResponse.final "All good.") researchAgent "hello").1.system_message
        = researchAgent.system_message ∧
    (Agent.process (fun _ => CompletionResponse.final "All good.") researchAgent "hello").1.registry
        = researchAgent.registry ∧
    (Agent.process (fun _ => CompletionResponse.final "All good.") researchAgent "hello").1.service_id
        = researchAgent.service_id ∧
    (∃ ext, (Agent.process (fun _ => CompletionResponse.final "All good.") researchAgent "hello").1.chat_history
        = researchAgent.chat_history ++ ext) ∧
    ∀ t : String,
      (Agent.process (fun _ => CompletionResponse.final "All good.") researchAgent "hello").2
          = Except.ok t →
      ∃ pre, (Agent.process (fun _ => CompletionResponse.final "All good.") researchAgent "hello").1.chat_history
          = pre ++ [⟨Role.assistant, t⟩] :=
  process_frame_and_result (fun _ => CompletionResponse.final "All good.") researchAgent "hello"
